import Mathlib

/-!
Shallow embedding of the note-demo persistence core: the entity model
(`models.rs`, `models/note.rs`) and the in-memory engine
(`persistence/memory.rs`) together with the derived lookups of the
`Persister` trait (`persistence.rs`).

Modelling conventions:
* `usize` ids become `Nat` (`Id` is a transparent wrapper in the source).
* The `Tags` hash set becomes a duplicate-free `List Tag` with
  insert-if-absent semantics; membership is value equality, as for
  `HashSet<Tag>` with derived `Eq`/`Hash`.
* Mutating methods take the storage and return it together with the
  result; `panic!`/`expect` paths are modelled by an `Option` result
  paired with the storage as it stands at the moment of the panic.
-/

namespace NoteDemo

/-- Rust `Visibility` from `models.rs`: `Private | Public | Deleted`. -/
inductive Visibility where
  | Private
  | Public
  | Deleted
deriving DecidableEq, Repr

/-- Rust `Id(pub usize)` from `models.rs`, modelled transparently as `Nat`. -/
abbrev Id := Nat

/-- Rust `Tag { id, label }` from `models.rs`. -/
structure Tag where
  id : Id
  label : String
deriving DecidableEq, Repr

/-- Rust `User { id, name }` from `models.rs`. -/
structure User where
  id : Id
  name : String
deriving DecidableEq, Repr

/-- Rust `Draft { title, body, tags, visibility }` from `models/note.rs`. -/
structure Draft where
  title : String
  body : String
  tags : List String
  visibility : Visibility
deriving DecidableEq, Repr

/-- The `Tags` set of a note (`Tags(HashSet<Tag>)` in `models/note.rs`),
modelled as a duplicate-free list. -/
abbrev Tags := List Tag

/-- Method `Tags::insert`: add a tag unless an equal one is already present. -/
def Tags.insert (ts : Tags) (t : Tag) : Tags :=
  if t ∈ ts then ts else ts ++ [t]

/-- Rust `Note` from `models/note.rs`. -/
structure Note where
  id : Id
  title : String
  body : String
  tags : Tags
  user : Id
  visibility : Visibility
deriving DecidableEq, Repr

/-- Constructor `Note::new(draft, id, user, tags)` from `models/note.rs`. -/
def Note.new (draft : Draft) (id : Id) (user : Id) (tags : Tags) : Note :=
  { id := id
    title := draft.title
    body := draft.body
    tags := tags
    user := user
    visibility := draft.visibility }

/-- Method `Note::tagged_with(tag)`: membership by full value equality. -/
def Note.tagged_with (n : Note) (t : Tag) : Bool :=
  decide (t ∈ n.tags)

/-- Rust `InMemoryStorage { notes: Vec<Note>, tags: Vec<Tag> }`. -/
structure InMemoryStorage where
  notes : List Note
  tags : List Tag
deriving DecidableEq, Repr

/-- The loop body of `InMemoryStorage::map_tags`: walk the label list,
reusing the first stored tag with a matching label and otherwise
appending a fresh tag whose id is the current tag-sequence length. -/
def map_tags_go (s : InMemoryStorage) (tags : Tags) (labels : List String) :
    Tags × InMemoryStorage :=
  match labels with
  | [] => (tags, s)
  | label :: rest =>
    match s.tags.find? (fun existing_tag => existing_tag.label == label) with
    | some tag => map_tags_go s (Tags.insert tags tag) rest
    | none =>
      let tag : Tag := { id := s.tags.length, label := label }
      map_tags_go { s with tags := s.tags ++ [tag] } (Tags.insert tags tag) rest

/-- Method `InMemoryStorage::map_tags(labels)`. -/
def map_tags (s : InMemoryStorage) (labels : List String) : Tags × InMemoryStorage :=
  map_tags_go s [] labels

/-- The `active` filter of `persistence/memory.rs`. -/
def active (note : Note) : Bool :=
  decide (note.visibility ≠ Visibility.Deleted)

namespace Persister

/-- Method `InMemoryStorage::notes()`: all notes passing `active`, storage order. -/
def notes (s : InMemoryStorage) : List Note :=
  s.notes.filter active

/-- Method `InMemoryStorage::tags()`: every stored tag, storage order. -/
def tags (s : InMemoryStorage) : List Tag :=
  s.tags

/-- Default `Persister::note(id)`: first note of `notes()` with the id. -/
def note (s : InMemoryStorage) (id : Id) : Option Note :=
  (notes s).find? (fun n => n.id == id)

/-- Default `Persister::tag(label)`: first tag of `tags()` with the label. -/
def tag (s : InMemoryStorage) (label : String) : Option Tag :=
  (tags s).find? (fun t => t.label == label)

/-- Method `InMemoryStorage::add_note(draft, user)`. The returned note is the
result of the final `self.note(id)` lookup; `none` models a failing
`.expect("Note was just added and must be present")`. -/
def add_note (s : InMemoryStorage) (draft : Draft) (user : User) :
    Option Note × InMemoryStorage :=
  let id := s.notes.length
  let ntags := (map_tags s draft.tags).1
  let s1 := (map_tags s draft.tags).2
  let n := Note.new draft id user.id ntags
  let s2 := { s1 with notes := s1.notes ++ [n] }
  (note s2 id, s2)

/-- Method `InMemoryStorage::update_note(draft, id)`. Tag resolution runs first;
`none` models the `panic!("Note does not exist")` branch, paired with the
storage as mutated up to that point. -/
def update_note (s : InMemoryStorage) (draft : Draft) (id : Id) :
    Option Note × InMemoryStorage :=
  let ntags := (map_tags s draft.tags).1
  let s1 := (map_tags s draft.tags).2
  match s1.notes[id]? with
  | some n =>
    let new_note := Note.new draft id n.user ntags
    (some new_note, { s1 with notes := s1.notes.set id new_note })
  | none => (none, s1)

/-- Method `InMemoryStorage::delete_note(id)`: soft-delete in place. -/
def delete_note (s : InMemoryStorage) (id : Id) : Bool × InMemoryStorage :=
  match s.notes[id]? with
  | some item =>
    (true, { s with notes := s.notes.set id { item with visibility := Visibility.Deleted } })
  | none => (false, s)

/-- Method `InMemoryStorage::user_notes(user)`: owner filter, then `active`. -/
def user_notes (s : InMemoryStorage) (user : User) : List Note :=
  (s.notes.filter (fun n => n.user == user.id)).filter active

/-- Method `InMemoryStorage::tagged_notes(tag)`: tag filter, then `active`. -/
def tagged_notes (s : InMemoryStorage) (t : Tag) : List Note :=
  (s.notes.filter (fun n => Note.tagged_with n t)).filter active

/-- Method `InMemoryStorage::add_tag(label)`. -/
def add_tag (s : InMemoryStorage) (label : String) : Id × InMemoryStorage :=
  match s.tags.find? (fun existing_tag => existing_tag.label == label) with
  | some t => (t.id, s)
  | none => (s.tags.length, { s with tags := s.tags ++ [Tag.mk s.tags.length label] })

end Persister

/-- Storage states reachable from the empty engine through the mutating
`Persister` operations. -/
inductive Reachable : InMemoryStorage → Prop where
  | init : Reachable { notes := [], tags := [] }
  | add_note (s : InMemoryStorage) (d : Draft) (u : User) :
      Reachable s → Reachable (Persister.add_note s d u).2
  | update_note (s : InMemoryStorage) (d : Draft) (id : Id) :
      Reachable s → Reachable (Persister.update_note s d id).2
  | delete_note (s : InMemoryStorage) (id : Id) :
      Reachable s → Reachable (Persister.delete_note s id).2
  | add_tag (s : InMemoryStorage) (label : String) :
      Reachable s → Reachable (Persister.add_tag s label).2

/-- Every element's id equals its positional index in the sequence. -/
def idsAligned {α : Type} (idOf : α → Nat) (xs : List α) : Prop :=
  ∀ i (h : i < xs.length), idOf (xs[i]) = i

/-- The Id-assignment invariant: note ids and tag ids each equal their
positional index in their own storage sequence. -/
def IdsWF (s : InMemoryStorage) : Prop :=
  idsAligned Note.id s.notes ∧ idsAligned Tag.id s.tags

/-- Positional uniqueness of ids: two storage positions carrying the same
id (within notes, or within tags) coincide. -/
def IdsUnique (s : InMemoryStorage) : Prop :=
  (∀ i j (hi : i < s.notes.length) (hj : j < s.notes.length),
      (s.notes[i]).id = (s.notes[j]).id → i = j) ∧
  (∀ i j (hi : i < s.tags.length) (hj : j < s.tags.length),
      (s.tags[i]).id = (s.tags[j]).id → i = j)

/-- A storage state produced by one engine operation from the empty state. -/
def reachedStorage : InMemoryStorage :=
  (Persister.add_tag { notes := [], tags := [] } "foo").2

/-! Concrete fixtures for witnesses and counterexamples -/

/-- A draft whose visibility is already `Deleted` on submission. -/
def deletedDraft : Draft :=
  { title := "t", body := "b", tags := [], visibility := Visibility.Deleted }

/-- The placeholder identity the server resolves every request to. -/
def defaultUser : User :=
  { id := 0, name := "" }

/-- The two-label draft of the duplicate-tags scenario. -/
def fooBarDraft : Draft :=
  { title := "Foo", body := "Foo", tags := ["foo", "bar"], visibility := Visibility.Public }

/-- A plain draft with no tag labels. -/
def sampleDraft : Draft :=
  { title := "T", body := "B", tags := [], visibility := Visibility.Public }

/-- A draft carrying one label that is new to `sampleStorage`. -/
def newLabelDraft : Draft :=
  { title := "T", body := "B", tags := ["x"], visibility := Visibility.Public }

/-- A note already soft-deleted in storage. -/
def sampleDeletedNote : Note :=
  { id := 0, title := "a", body := "b", tags := [], user := 7, visibility := Visibility.Deleted }

/-- A storage state holding one soft-deleted note and one tag. -/
def sampleStorage : InMemoryStorage :=
  { notes := [sampleDeletedNote], tags := [⟨0, "foo"⟩] }

/-! Helper lemmas about tag resolution -/

theorem map_tags_go_notes (labels : List String) (s : InMemoryStorage) (acc : Tags) :
    (map_tags_go s acc labels).2.notes = s.notes := by
  induction labels generalizing s acc with
  | nil => rfl
  | cons label rest ih =>
    cases hf : s.tags.find? (fun existing_tag => existing_tag.label == label) with
    | some t => simpa only [map_tags_go, hf] using ih s (Tags.insert acc t)
    | none =>
      simpa only [map_tags_go, hf] using
        ih { s with tags := s.tags ++ [⟨s.tags.length, label⟩] }
          (Tags.insert acc ⟨s.tags.length, label⟩)

theorem map_tags_notes (s : InMemoryStorage) (labels : List String) :
    (map_tags s labels).2.notes = s.notes :=
  map_tags_go_notes labels s []

theorem map_tags_go_tags_append (labels : List String) (s : InMemoryStorage) (acc : Tags) :
    ∃ ts, (map_tags_go s acc labels).2.tags = s.tags ++ ts := by
  induction labels generalizing s acc with
  | nil => exact ⟨[], by simp [map_tags_go]⟩
  | cons label rest ih =>
    cases hf : s.tags.find? (fun existing_tag => existing_tag.label == label) with
    | some t =>
      simpa only [map_tags_go, hf] using ih s (Tags.insert acc t)
    | none =>
      obtain ⟨ts, hts⟩ :=
        ih { s with tags := s.tags ++ [⟨s.tags.length, label⟩] }
          (Tags.insert acc ⟨s.tags.length, label⟩)
      refine ⟨⟨s.tags.length, label⟩ :: ts, ?_⟩
      simp only [map_tags_go, hf]
      rw [hts]
      simp

theorem map_tags_go_tags_mono (labels : List String) (s : InMemoryStorage) (acc : Tags) :
    s.tags.length ≤ (map_tags_go s acc labels).2.tags.length := by
  obtain ⟨ts, hts⟩ := map_tags_go_tags_append labels s acc
  simp [hts]

theorem map_tags_go_tags_mem (labels : List String) (s : InMemoryStorage) (acc : Tags)
    (t : Tag) (ht : t ∈ s.tags) : t ∈ (map_tags_go s acc labels).2.tags := by
  obtain ⟨ts, hts⟩ := map_tags_go_tags_append labels s acc
  rw [hts]
  exact List.mem_append_left _ ht

theorem map_tags_go_label_found (labels : List String) (s : InMemoryStorage) (acc : Tags)
    (l : String) (hl : l ∈ labels) :
    ∃ t ∈ (map_tags_go s acc labels).2.tags, t.label = l := by
  induction labels generalizing s acc with
  | nil => cases hl
  | cons label rest ih =>
    cases hf : s.tags.find? (fun existing_tag => existing_tag.label == label) with
    | some t =>
      simp only [map_tags_go, hf]
      rcases List.mem_cons.mp hl with h | h
      · subst h
        refine ⟨t, map_tags_go_tags_mem rest s _ t (List.mem_of_find?_eq_some hf), ?_⟩
        simpa using List.find?_some hf
      · exact ih s (Tags.insert acc t) h
    | none =>
      simp only [map_tags_go, hf]
      rcases List.mem_cons.mp hl with h | h
      · subst h
        refine ⟨⟨s.tags.length, l⟩, ?_, rfl⟩
        exact map_tags_go_tags_mem rest _ _ _ (by simp)
      · exact ih _ _ h

theorem map_tags_go_all_found (labels : List String) (s : InMemoryStorage) (acc : Tags)
    (h : ∀ l ∈ labels, ∃ t ∈ s.tags, t.label = l) :
    (map_tags_go s acc labels).2 = s := by
  induction labels generalizing s acc with
  | nil => rfl
  | cons label rest ih =>
    obtain ⟨t, ht, hlab⟩ := h label (List.mem_cons_self label rest)
    cases hf : s.tags.find? (fun existing_tag => existing_tag.label == label) with
    | none => exact absurd (by simp [hlab]) (List.find?_eq_none.mp hf t ht)
    | some t' =>
      simp only [map_tags_go, hf]
      exact ih s (Tags.insert acc t') (fun l hl => h l (List.mem_cons_of_mem _ hl))

theorem map_tags_go_new_label (labels : List String) (s : InMemoryStorage) (acc : Tags)
    (l : String) (hl : l ∈ labels) (hnew : ∀ t ∈ s.tags, t.label ≠ l) :
    s.tags.length < (map_tags_go s acc labels).2.tags.length := by
  induction labels generalizing s acc with
  | nil => cases hl
  | cons label rest ih =>
    cases hf : s.tags.find? (fun existing_tag => existing_tag.label == label) with
    | some t =>
      have htm : t ∈ s.tags := List.mem_of_find?_eq_some hf
      have htl : t.label = label := by simpa using List.find?_some hf
      have hll : label ≠ l := fun h => hnew t htm (htl.trans h)
      have hl' : l ∈ rest := by
        rcases List.mem_cons.mp hl with h | h
        · exact absurd h.symm hll
        · exact h
      simp only [map_tags_go, hf]
      exact ih s (Tags.insert acc t) hl' hnew
    | none =>
      simp only [map_tags_go, hf]
      refine lt_of_lt_of_le ?_ (map_tags_go_tags_mono rest _ _)
      simp

/-! Helper lemmas about positional id alignment -/

theorem idsAligned_nil {α : Type} (idOf : α → Nat) : idsAligned idOf [] := by
  intro i hi
  exact absurd hi (by simp)

theorem idsAligned_push {α : Type} (idOf : α → Nat) (xs : List α) (x : α)
    (hx : idOf x = xs.length) (h : idsAligned idOf xs) :
    idsAligned idOf (xs ++ [x]) := by
  intro i hi
  rcases Nat.lt_or_ge i xs.length with h1 | h1
  · rw [List.getElem_append_left h1]
    exact h i h1
  · have hi2 : i = xs.length := by
      simp only [List.length_append, List.length_cons, List.length_nil] at hi
      omega
    rw [List.getElem_concat_length xs x i hi2]
    omega

theorem idsAligned_set {α : Type} (idOf : α → Nat) (xs : List α) (i : Nat) (x : α)
    (hx : idOf x = i) (h : idsAligned idOf xs) :
    idsAligned idOf (xs.set i x) := by
  intro j hj
  have hj' : j < xs.length := by simpa using hj
  rw [List.getElem_set]
  by_cases hij : i = j
  · subst hij
    simp [hx]
  · rw [if_neg hij]
    exact h j hj'

theorem map_tags_go_aligned (labels : List String) (s : InMemoryStorage) (acc : Tags)
    (h : idsAligned Tag.id s.tags) :
    idsAligned Tag.id (map_tags_go s acc labels).2.tags := by
  induction labels generalizing s acc with
  | nil => exact h
  | cons label rest ih =>
    cases hf : s.tags.find? (fun existing_tag => existing_tag.label == label) with
    | some t =>
      simp only [map_tags_go, hf]
      exact ih s (Tags.insert acc t) h
    | none =>
      simp only [map_tags_go, hf]
      exact ih _ _ (idsAligned_push Tag.id s.tags ⟨s.tags.length, label⟩ rfl h)

theorem map_tags_aligned (s : InMemoryStorage) (labels : List String)
    (h : idsAligned Tag.id s.tags) :
    idsAligned Tag.id (map_tags s labels).2.tags :=
  map_tags_go_aligned labels s [] h

/-- Every reachable storage state satisfies the Id-assignment invariant. -/
theorem reachable_idsWF (s : InMemoryStorage) (h : Reachable s) : IdsWF s := by
  induction h with
  | init => exact ⟨idsAligned_nil Note.id, idsAligned_nil Tag.id⟩
  | add_note s d u hr ih =>
    obtain ⟨hn, ht⟩ := ih
    constructor
    · have e : (Persister.add_note s d u).2.notes
          = s.notes ++ [Note.new d s.notes.length u.id (map_tags s d.tags).1] := by
        simp [Persister.add_note, map_tags_notes]
      rw [e]
      exact idsAligned_push Note.id s.notes _ rfl hn
    · have e : (Persister.add_note s d u).2.tags = (map_tags s d.tags).2.tags := rfl
      rw [e]
      exact map_tags_aligned s d.tags ht
  | update_note s d id hr ih =>
    obtain ⟨hn, ht⟩ := ih
    cases hg : s.notes[id]? with
    | some n0 =>
      constructor
      · have e : (Persister.update_note s d id).2.notes
            = s.notes.set id (Note.new d id n0.user (map_tags s d.tags).1) := by
          simp [Persister.update_note, map_tags_notes, hg]
        rw [e]
        exact idsAligned_set Note.id s.notes id _ rfl hn
      · have e : (Persister.update_note s d id).2.tags = (map_tags s d.tags).2.tags := by
          simp [Persister.update_note, map_tags_notes, hg]
        rw [e]
        exact map_tags_aligned s d.tags ht
    | none =>
      constructor
      · have e : (Persister.update_note s d id).2.notes = s.notes := by
          simp [Persister.update_note, map_tags_notes, hg]
        rw [e]
        exact hn
      · have e : (Persister.update_note s d id).2.tags = (map_tags s d.tags).2.tags := by
          simp [Persister.update_note, map_tags_notes, hg]
        rw [e]
        exact map_tags_aligned s d.tags ht
  | delete_note s id hr ih =>
    obtain ⟨hn, ht⟩ := ih
    cases hg : s.notes[id]? with
    | some item =>
      have hid : item.id = id := by
        obtain ⟨hlt, hgetEq⟩ := List.getElem?_eq_some.mp hg
        rw [← hgetEq]
        exact hn id hlt
      constructor
      · have e : (Persister.delete_note s id).2.notes
            = s.notes.set id { item with visibility := Visibility.Deleted } := by
          simp [Persister.delete_note, hg]
        rw [e]
        exact idsAligned_set Note.id s.notes id _ hid hn
      · have e : (Persister.delete_note s id).2.tags = s.tags := by
          simp [Persister.delete_note, hg]
        rw [e]
        exact ht
    | none =>
      have e : (Persister.delete_note s id).2 = s := by
        simp [Persister.delete_note, hg]
      rw [e]
      exact ⟨hn, ht⟩
  | add_tag s label hr ih =>
    obtain ⟨hn, ht⟩ := ih
    cases hf : s.tags.find? (fun existing_tag => existing_tag.label == label) with
    | some t =>
      have e : (Persister.add_tag s label).2 = s := by
        simp [Persister.add_tag, hf]
      rw [e]
      exact ⟨hn, ht⟩
    | none =>
      constructor
      · have e : (Persister.add_tag s label).2.notes = s.notes := by
          simp [Persister.add_tag, hf]
        rw [e]
        exact hn
      · have e : (Persister.add_tag s label).2.tags
            = s.tags ++ [Tag.mk s.tags.length label] := by
          simp [Persister.add_tag, hf]
        rw [e]
        exact idsAligned_push Tag.id s.tags _ rfl ht

end NoteDemo

namespace NoteDemo

/-! Claim theorems -/

/-- C1: the claim says add_note always stores the draft as a note and
returns it, with the subsequent `note(id)` lookup finding it. The code
violates this for a draft whose visibility is already `Deleted`: the note
is stored, but the final `self.note(id)` lookup runs through the
`Deleted`-filtering `notes()`, finds nothing, and the
`.expect("Note was just added and must be present")` panics — the code
contradicts its own assertion message. This theorem evaluates the engine
at that failing input. -/
theorem add_note_deleted_draft_lookup_fails :
    (Persister.add_note { notes := [], tags := [] } deletedDraft defaultUser).1 = none
  ∧ ((Persister.add_note { notes := [], tags := [] } deletedDraft defaultUser).2).notes.length = 1
  ∧ Persister.note (Persister.add_note { notes := [], tags := [] } deletedDraft defaultUser).2 0
      = none := by
  decide

/-- C2: `notes()` yields exactly the stored notes whose visibility is not
`Deleted`, in storage order, and `user_notes(u)` yields exactly the
non-deleted notes owned by `u.id`, also in storage order (equivalently:
first exclude deleted notes, then filter by ownership). -/
theorem notes_and_user_notes_active_filter (s : InMemoryStorage) (u : User) :
    List.Sublist (Persister.notes s) s.notes
  ∧ (∀ n, n ∈ Persister.notes s ↔ n ∈ s.notes ∧ n.visibility ≠ Visibility.Deleted)
  ∧ List.Sublist (Persister.user_notes s u) s.notes
  ∧ (∀ n, n ∈ Persister.user_notes s u ↔
        n ∈ s.notes ∧ n.user = u.id ∧ n.visibility ≠ Visibility.Deleted)
  ∧ Persister.user_notes s u
      = (s.notes.filter active).filter (fun n => n.user == u.id) := by
  refine ⟨List.filter_sublist s.notes, ?_, ?_, ?_, ?_⟩
  · intro n
    simp [Persister.notes, List.mem_filter, active]
  · exact (List.filter_sublist _).trans (List.filter_sublist _)
  · intro n
    simp only [Persister.user_notes, List.mem_filter, active, decide_eq_true_eq, beq_iff_eq]
    tauto
  · simp only [Persister.user_notes]
    rw [List.filter_filter, List.filter_filter]
    exact List.filter_congr (fun x _ => Bool.and_comm _ _)

/-- C8: `tagged_notes(t)` yields exactly the stored notes that are not
soft-deleted and whose tag set contains a tag equal to `t` (full value
match on id and label), in storage order (equivalently: first exclude
deleted notes, then filter by tag membership). -/
theorem tagged_notes_exact_characterization (s : InMemoryStorage) (t : Tag) :
    List.Sublist (Persister.tagged_notes s t) s.notes
  ∧ (∀ n, n ∈ Persister.tagged_notes s t ↔
        n ∈ s.notes ∧ n.visibility ≠ Visibility.Deleted ∧ t ∈ n.tags)
  ∧ Persister.tagged_notes s t
      = (s.notes.filter active).filter (fun n => Note.tagged_with n t) := by
  refine ⟨(List.filter_sublist _).trans (List.filter_sublist _), ?_, ?_⟩
  · intro n
    simp only [Persister.tagged_notes, List.mem_filter, active, Note.tagged_with,
      decide_eq_true_eq]
    tauto
  · simp only [Persister.tagged_notes]
    rw [List.filter_filter, List.filter_filter]
    exact List.filter_congr (fun x _ => Bool.and_comm _ _)

/-- C9: the derived `tag(label)` lookup is an exact, case-sensitive string
match over tag storage: it returns `none` precisely when no stored tag
carries the queried label, and it returns `some t` precisely when `t` is
the first stored tag whose label equals the query character for
character. -/
theorem tag_lookup_exact_match (s : InMemoryStorage) (label : String) :
    (Persister.tag s label = none ↔ ∀ t ∈ s.tags, t.label ≠ label)
  ∧ (∀ t, Persister.tag s label = some t ↔
        t.label = label ∧ ∃ l1 l2, s.tags = l1 ++ t :: l2 ∧ ∀ u ∈ l1, u.label ≠ label) := by
  constructor
  · simp [Persister.tag, Persister.tags, List.find?_eq_none]
  · intro t
    simp only [Persister.tag, Persister.tags]
    rw [List.find?_eq_some]
    simp

end NoteDemo

namespace NoteDemo

/-- C3: `update_note(d, id)` fails fatally (modelled by a `none` result)
precisely when no storage slot exists at `id`; it never creates a note
(on failure note storage is exactly as before, and the note count never
changes); when a slot exists — soft-deleted or not — the call succeeds. -/
theorem update_note_missing_id_fatal (s : InMemoryStorage) (d : Draft) (id : Id) :
    ((Persister.update_note s d id).1 = none ↔ s.notes.length ≤ id)
  ∧ (Persister.update_note s d id).2.notes.length = s.notes.length
  ∧ (s.notes.length ≤ id → (Persister.update_note s d id).2.notes = s.notes) := by
  cases hg : s.notes[id]? with
  | some n0 =>
    have hlt : id < s.notes.length := (List.getElem?_eq_some.mp hg).1
    refine ⟨?_, ?_, fun hge => absurd hge (Nat.not_le.mpr hlt)⟩
    · simp only [Persister.update_note, map_tags_notes, hg]
      simp [Nat.not_le.mpr hlt]
    · simp [Persister.update_note, map_tags_notes, hg]
  | none =>
    have hge : s.notes.length ≤ id := List.getElem?_eq_none_iff.mp hg
    refine ⟨?_, ?_, fun _ => ?_⟩
    · simp [Persister.update_note, map_tags_notes, hg, hge]
    · simp [Persister.update_note, map_tags_notes, hg]
    · simp [Persister.update_note, map_tags_notes, hg]

/-- Witness for C3 at a concrete input: updating the out-of-range id 5 of
a one-note storage leaves note storage exactly unchanged. -/
theorem update_note_missing_id_fatal_witness :
    (Persister.update_note sampleStorage sampleDraft 5).2.notes = sampleStorage.notes :=
  (update_note_missing_id_fatal sampleStorage sampleDraft 5).2.2 (by decide)

/-- C4: when a note occupies `id`, `update_note(d, id)` replaces it
wholesale — title, body, visibility come from the draft and the tag set
is the draft's resolved label list — while the stored note keeps the
original owner id and the id `id`, even though the draft carries no
owner field. -/
theorem update_note_replaces_preserving_owner (s : InMemoryStorage) (d : Draft) (id : Id)
    (old : Note) (h : s.notes[id]? = some old) :
    ∃ n, (Persister.update_note s d id).1 = some n
      ∧ n.title = d.title ∧ n.body = d.body ∧ n.visibility = d.visibility
      ∧ n.tags = (map_tags s d.tags).1
      ∧ n.user = old.user ∧ n.id = id
      ∧ (Persister.update_note s d id).2.notes = s.notes.set id n := by
  refine ⟨Note.new d id old.user (map_tags s d.tags).1, ?_, rfl, rfl, rfl, rfl, rfl, rfl, ?_⟩
  · simp [Persister.update_note, map_tags_notes, h]
  · simp [Persister.update_note, map_tags_notes, h]

/-- Witness for C4 at a concrete input: updating the (soft-deleted) note
at id 0 of `sampleStorage` produces a note with the draft's fields and
the original owner 7. -/
theorem update_note_replaces_preserving_owner_witness :
    ∃ n, (Persister.update_note sampleStorage sampleDraft 0).1 = some n
      ∧ n.title = sampleDraft.title ∧ n.body = sampleDraft.body
      ∧ n.visibility = sampleDraft.visibility
      ∧ n.tags = (map_tags sampleStorage sampleDraft.tags).1
      ∧ n.user = sampleDeletedNote.user ∧ n.id = 0
      ∧ (Persister.update_note sampleStorage sampleDraft 0).2.notes
          = sampleStorage.notes.set 0 n :=
  update_note_replaces_preserving_owner sampleStorage sampleDraft 0 sampleDeletedNote
    (by decide)

/-- C5: `delete_note(id)` returns true and soft-deletes in place exactly
when a note occupies `id`, returns false otherwise; the note count and
the tag storage are always unchanged, the entire state is unchanged on
the false branch, and on the true branch the only change is the target
note's visibility becoming `Deleted`. -/
theorem delete_note_soft_delete_semantics (s : InMemoryStorage) (id : Id) :
    ((Persister.delete_note s id).1 = true ↔ id < s.notes.length)
  ∧ (Persister.delete_note s id).2.notes.length = s.notes.length
  ∧ (Persister.delete_note s id).2.tags = s.tags
  ∧ (s.notes.length ≤ id → (Persister.delete_note s id).2 = s)
  ∧ (∀ old, s.notes[id]? = some old →
      (Persister.delete_note s id).2.notes
        = s.notes.set id { old with visibility := Visibility.Deleted }) := by
  cases hg : s.notes[id]? with
  | some item =>
    have hlt : id < s.notes.length := (List.getElem?_eq_some.mp hg).1
    refine ⟨by simp [Persister.delete_note, hg, hlt], by simp [Persister.delete_note, hg],
      by simp [Persister.delete_note, hg], fun hge => absurd hge (Nat.not_le.mpr hlt), ?_⟩
    intro old hold
    have he : item = old := by
      injection hold
    subst he
    simp [Persister.delete_note, hg]
  | none =>
    have hge : s.notes.length ≤ id := List.getElem?_eq_none_iff.mp hg
    refine ⟨by simp [Persister.delete_note, hg, Nat.not_lt.mpr hge],
      by simp [Persister.delete_note, hg],
      by simp [Persister.delete_note, hg], fun _ => by simp [Persister.delete_note, hg], ?_⟩
    intro old hold
    simp at hold

/-- Witness for C5 at concrete inputs: deleting id 0 of `sampleStorage`
rewrites that slot in place, and deleting the vacant id 5 returns the
state untouched. -/
theorem delete_note_soft_delete_semantics_witness :
    ((Persister.delete_note sampleStorage 0).2.notes
      = sampleStorage.notes.set 0 { sampleDeletedNote with visibility := Visibility.Deleted })
  ∧ (Persister.delete_note sampleStorage 5).2 = sampleStorage :=
  ⟨(delete_note_soft_delete_semantics sampleStorage 0).2.2.2.2 sampleDeletedNote (by decide),
   (delete_note_soft_delete_semantics sampleStorage 5).2.2.2.1 (by decide)⟩

/-- C6: tag resolution never duplicates a label — resolving the same
label list a second time leaves the storage exactly as it was; `add_tag`
returns the id of an existing tag with that exact label when present and
otherwise appends a fresh tag with the next sequential id; and the
two-note `["foo","bar"]` scenario ends with exactly 2 stored tags,
not 4. -/
theorem tag_resolution_no_duplicates (s : InMemoryStorage) (labels : List String)
    (label : String) :
    (map_tags (map_tags s labels).2 labels).2 = (map_tags s labels).2
  ∧ ((∃ t ∈ s.tags, t.label = label) →
      ∃ t ∈ s.tags, t.label = label ∧ Persister.add_tag s label = (t.id, s))
  ∧ ((∀ t ∈ s.tags, t.label ≠ label) →
      Persister.add_tag s label
        = (s.tags.length, { s with tags := s.tags ++ [Tag.mk s.tags.length label] }))
  ∧ ((Persister.add_note (Persister.add_note { notes := [], tags := [] }
        fooBarDraft defaultUser).2 fooBarDraft defaultUser).2).tags.length = 2 := by
  refine ⟨?_, ?_, ?_, by decide⟩
  · exact map_tags_go_all_found labels _ []
      (fun l hl => map_tags_go_label_found labels s [] l hl)
  · rintro ⟨t, ht, hlab⟩
    cases hf : s.tags.find? (fun existing_tag => existing_tag.label == label) with
    | none => exact absurd (by simp [hlab]) (List.find?_eq_none.mp hf t ht)
    | some tFound =>
      refine ⟨tFound, List.mem_of_find?_eq_some hf, by simpa using List.find?_some hf, ?_⟩
      simp [Persister.add_tag, hf]
  · intro h
    have hf : s.tags.find? (fun existing_tag => existing_tag.label == label) = none :=
      List.find?_eq_none.mpr (fun t ht => by simp [h t ht])
    simp [Persister.add_tag, hf]

/-- Witness for C6 at concrete inputs: on `sampleStorage`, `add_tag` of
the stored label reuses the stored tag's id, and `add_tag` of a fresh
label appends a tag with the next id. -/
theorem tag_resolution_no_duplicates_witness :
    (∃ t ∈ sampleStorage.tags, t.label = "foo"
        ∧ Persister.add_tag sampleStorage "foo" = (t.id, sampleStorage))
  ∧ Persister.add_tag sampleStorage "zap"
      = (sampleStorage.tags.length,
         { sampleStorage with
            tags := sampleStorage.tags ++ [Tag.mk sampleStorage.tags.length "zap"] }) :=
  ⟨(tag_resolution_no_duplicates sampleStorage [] "foo").2.1 (by decide),
   (tag_resolution_no_duplicates sampleStorage [] "zap").2.2.1 (by decide)⟩

/-- C7: in every reachable storage state, every note's id and every tag's
id equal the entity's positional index in its own storage sequence
(hence ids start at 0, are assigned sequentially on creation, and are
unique within each collection). -/
theorem reachable_ids_positional (s : InMemoryStorage) (h : Reachable s) :
    IdsWF s ∧ IdsUnique s := by
  obtain ⟨hn, ht⟩ := reachable_idsWF s h
  refine ⟨⟨hn, ht⟩, ?_, ?_⟩
  · intro i j hi hj hij
    rw [hn i hi, hn j hj] at hij
    exact hij
  · intro i j hi hj hij
    rw [ht i hi, ht j hj] at hij
    exact hij

/-- Witness for C7 at a concrete reachable state: the invariant holds
after one `add_tag` on the empty engine. -/
theorem reachable_ids_positional_witness :
    IdsWF reachedStorage ∧ IdsUnique reachedStorage :=
  reachable_ids_positional reachedStorage
    (Reachable.add_tag { notes := [], tags := [] } "foo" Reachable.init)

/-- C10: `update_note` resolves the draft's tag labels before checking
that the target id exists, so with a vacant id and a label unknown to
tag storage the call fails (returns `none`) with note storage unchanged
but tag storage strictly grown, now holding a tag with the new label. -/
theorem update_note_resolves_tags_before_existence_check
    (s : InMemoryStorage) (d : Draft) (id : Id) (label : String)
    (hid : s.notes.length ≤ id) (hlab : label ∈ d.tags)
    (hnew : ∀ t ∈ s.tags, t.label ≠ label) :
    (Persister.update_note s d id).1 = none
  ∧ (Persister.update_note s d id).2.notes = s.notes
  ∧ s.tags.length < (Persister.update_note s d id).2.tags.length
  ∧ ∃ t ∈ (Persister.update_note s d id).2.tags, t.label = label := by
  have hg : (map_tags s d.tags).2.notes[id]? = none := by
    rw [map_tags_notes]
    exact List.getElem?_eq_none hid
  have e2 : (Persister.update_note s d id).2 = (map_tags s d.tags).2 := by
    simp [Persister.update_note, hg]
  refine ⟨by simp [Persister.update_note, hg], ?_, ?_, ?_⟩
  · rw [e2, map_tags_notes]
  · rw [e2]
    exact map_tags_go_new_label d.tags s [] label hlab hnew
  · rw [e2]
    exact map_tags_go_label_found d.tags s [] label hlab

/-- Witness for C10 at a concrete input: updating vacant id 0 of the
empty engine with a draft tagged `"x"` fails yet persists the new tag. -/
theorem update_note_resolves_tags_before_existence_check_witness :
    (Persister.update_note { notes := [], tags := [] } newLabelDraft 0).1 = none
  ∧ (Persister.update_note { notes := [], tags := [] } newLabelDraft 0).2.notes
      = ({ notes := [], tags := [] } : InMemoryStorage).notes
  ∧ ({ notes := [], tags := [] } : InMemoryStorage).tags.length
      < (Persister.update_note { notes := [], tags := [] } newLabelDraft 0).2.tags.length
  ∧ ∃ t ∈ (Persister.update_note { notes := [], tags := [] } newLabelDraft 0).2.tags,
      t.label = "x" :=
  update_note_resolves_tags_before_existence_check { notes := [], tags := [] }
    newLabelDraft 0 "x" (by decide) (by decide) (by decide)

end NoteDemo
